import Mathlib

/-!
Verification of the Triple Codec of `KnowledgeGraph` (src/00_core.ipynb):
the encode path `save_parquet` (which stores `term.n3()` for each of the
three positions of every triple) and the decode path `load_parquet`
(which re-parses the three text fields of every row by prefix/suffix
inspection, in batches, and adds the resulting triples to the wrapped
rdflib graph).

Python strings are modelled as `List Char`; rdflib terms as the tagged
type `Term`; the wrapped rdflib graph as a duplicate-free list with
set-semantics insertion, matching `rdflib.Graph.add`.
-/

/-- A Python string: a sequence of characters. -/
abbrev Str := List Char

/-- Python `s.startswith(pre)`. -/
def pyStartsWith (s pre : Str) : Bool := pre.isPrefixOf s

/-- Python `s.endswith(suf)`. -/
def pyEndsWith (s suf : Str) : Bool := suf.isSuffixOf s

/-- The characters stripped by the decode path: `'"\''` (double and single quote). -/
def isQuoteChar (c : Char) : Bool := c = '"' || c = '\''

/-- Python `s.strip('"\'')`: remove every leading and every trailing
character belonging to the quote set. -/
def pyStrip (s : Str) : Str :=
  ((s.dropWhile isQuoteChar).reverse.dropWhile isQuoteChar).reverse

/-- Python `s[1:-1]`: drop the first and the last character. -/
def enclosed (s : Str) : Str := (s.drop 1).dropLast

/-- An rdflib term occupying one position of a triple: `URIRef`,
`BNode`, or `Literal` (lexical value, optional datatype, optional
language tag). -/
inductive Term where
  | IRI : Str → Term
  | BlankNode : Str → Term
  | Literal : Str → Option Str → Option Str → Term
deriving DecidableEq

/-- One RDF triple `(subject, predicate, object)`. -/
structure Triple where
  s : Term
  p : Term
  o : Term
deriving DecidableEq

/-- One row of the Parquet table: three text columns named
`subject`, `predicate`, `object` (`KnowledgeGraph._COL_NAMES`). -/
structure Row where
  subject : Str
  predicate : Str
  object : Str
deriving DecidableEq

/-- The string-escaping applied by rdflib inside the quoted lexical form
of `Literal.n3()`: backslash, newline, double quote and carriage return
are backslash-escaped. -/
def n3Escape (s : Str) : Str :=
  (s.map fun c =>
    if c = '\\' then ['\\', '\\']
    else if c = '\n' then ['\\', 'n']
    else if c = '"' then ['\\', '"']
    else if c = '\r' then ['\\', 'r']
    else [c]).flatten

/-- rdflib's `term.n3()`, the per-term encoding used by `save_parquet`:
`URIRef(v)` gives `<v>`; `BNode(b)` gives `_:b`; a literal gives its
double-quoted (escaped) lexical form, suffixed with `@lang` when a
language tag is present, else with `^^<datatype>` when a datatype is
present. -/
def n3 : Term → Str
  | .IRI v => '<' :: v ++ ['>']
  | .BlankNode b => '_' :: ':' :: b
  | .Literal lex dt lang =>
    let q : Str := '"' :: n3Escape lex ++ ['"']
    match lang, dt with
    | some l, _ => q ++ '@' :: l
    | none, some d => q ++ '^' :: '^' :: '<' :: d ++ ['>']
    | none, none => q

/-- The row built by `save_parquet` for one triple: the `n3` text of
each of its three terms. -/
def encodeTriple (t : Triple) : Row := ⟨n3 t.s, n3 t.p, n3 t.o⟩

/-- `load_parquet`'s subject parse: `<...>` gives `URIRef(s[1:-1])`,
else a leading `_:` gives `BNode(s[2:])`, else `Literal(s)`. -/
def parseSubject (s : Str) : Term :=
  if pyStartsWith s ['<'] && pyEndsWith s ['>'] then .IRI (enclosed s)
  else if pyStartsWith s ['_', ':'] then .BlankNode (s.drop 2)
  else .Literal s none none

/-- `load_parquet`'s predicate parse: `<...>` gives `URIRef(s[1:-1])`,
anything else gives `URIRef(s)` on the raw text. -/
def parsePredicate (s : Str) : Term :=
  if pyStartsWith s ['<'] && pyEndsWith s ['>'] then .IRI (enclosed s)
  else .IRI s

/-- `load_parquet`'s object parse: `<...>` gives `URIRef(s[1:-1])`, else
a leading `_:` gives `BNode(s[2:])`, else a leading quote gives
`Literal(s.strip('"\''))`, else `Literal(s)`. -/
def parseObject (s : Str) : Term :=
  if pyStartsWith s ['<'] && pyEndsWith s ['>'] then .IRI (enclosed s)
  else if pyStartsWith s ['_', ':'] then .BlankNode (s.drop 2)
  else if pyStartsWith s ['"'] || pyStartsWith s ['\''] then
    .Literal (pyStrip s) none none
  else .Literal s none none

/-- Decoding one row into one triple (the body of `load_parquet`'s
inner loop). -/
def parseRow (r : Row) : Triple :=
  ⟨parseSubject r.subject, parsePredicate r.predicate, parseObject r.object⟩

/-- The batch start offsets `range(0, total, batch_size)` of
`load_parquet`, modelled for `batch_size ≥ 1` (Python's `range` rejects
a zero step). -/
def batchStarts (total k : Nat) : List Nat :=
  (List.range ((total + k - 1) / k)).map (fun i => i * k)

/-- The batches `df.iloc[start:min(start+batch_size, total)]` taken by
`load_parquet`, in order. -/
def chunks (rows : List Row) (k : Nat) : List (List Row) :=
  (batchStarts rows.length k).map (fun start => (rows.drop start).take k)

/-- The full decoded triple sequence produced by `load_parquet`'s loop:
every batch decoded row by row, batches concatenated in order. -/
def decodeBatch (rows : List Row) (k : Nat) : List Triple :=
  ((chunks rows k).map (List.map parseRow)).flatten

/-- The wrapped rdflib graph, as the list of its triples. -/
abbrev Graph := List Triple

/-- `rdflib.Graph.add`: set-semantics insertion used once per decoded
triple. -/
def graphAdd (g : Graph) (t : Triple) : Graph :=
  if t ∈ g then g else g ++ [t]

/-- `load_parquet` itself, on the graph state: for each batch, decode
its rows, then `add` each decoded triple to the graph; the updated
graph is returned (`return self`). -/
def load_parquet (g : Graph) (rows : List Row) (k : Nat) : Graph :=
  (chunks rows k).foldl (fun acc batch => ((batch.map parseRow).foldl graphAdd acc)) g

theorem pyStartsWith_cons_single (c d : Char) (s : Str) :
    pyStartsWith (c :: s) [d] = (d == c) := by
  simp [pyStartsWith, List.isPrefixOf]

theorem pyEndsWith_concat (s : Str) (c : Char) : pyEndsWith (s ++ [c]) [c] = true := by
  simp [pyEndsWith, List.isSuffixOf, List.isPrefixOf]

theorem parseSubject_angle (x : Str) : parseSubject ('<' :: x ++ ['>']) = .IRI x := by
  have h : (pyStartsWith ('<' :: x ++ ['>']) ['<'] && pyEndsWith ('<' :: x ++ ['>']) ['>']) = true := by
    simp [pyStartsWith, pyEndsWith, List.isPrefixOf, List.isSuffixOf]
  unfold parseSubject
  rw [if_pos h]
  simp [enclosed]

theorem parsePredicate_angle (x : Str) : parsePredicate ('<' :: x ++ ['>']) = .IRI x := by
  have h : (pyStartsWith ('<' :: x ++ ['>']) ['<'] && pyEndsWith ('<' :: x ++ ['>']) ['>']) = true := by
    simp [pyStartsWith, pyEndsWith, List.isPrefixOf, List.isSuffixOf]
  unfold parsePredicate
  rw [if_pos h]
  simp [enclosed]

theorem parseObject_angle (x : Str) : parseObject ('<' :: x ++ ['>']) = .IRI x := by
  have h : (pyStartsWith ('<' :: x ++ ['>']) ['<'] && pyEndsWith ('<' :: x ++ ['>']) ['>']) = true := by
    simp [pyStartsWith, pyEndsWith, List.isPrefixOf, List.isSuffixOf]
  unfold parseObject
  rw [if_pos h]
  simp [enclosed]

theorem parseSubject_bnode (b : Str) : parseSubject ('_' :: ':' :: b) = .BlankNode b := by
  simp [parseSubject, pyStartsWith, pyEndsWith, List.isPrefixOf]

theorem parseObject_bnode (b : Str) : parseObject ('_' :: ':' :: b) = .BlankNode b := by
  simp [parseObject, pyStartsWith, pyEndsWith, List.isPrefixOf]

theorem angle_field_decode (s : Str)
    (h1 : pyStartsWith s ['<'] = true) (h2 : pyEndsWith s ['>'] = true) :
    parseSubject s = .IRI (enclosed s) ∧
    parsePredicate s = .IRI (enclosed s) ∧
    parseObject s = .IRI (enclosed s) := by
  have hc : (pyStartsWith s ['<'] && pyEndsWith s ['>']) = true := by
    rw [h1, h2]
    rfl
  refine ⟨?_, ?_, ?_⟩
  · unfold parseSubject
    rw [if_pos hc]
  · unfold parsePredicate
    rw [if_pos hc]
  · unfold parseObject
    rw [if_pos hc]

theorem bnode_field_decode (s : Str) (h : pyStartsWith s ['_', ':'] = true) :
    parseSubject s = .BlankNode (s.drop 2) ∧ parseObject s = .BlankNode (s.drop 2) := by
  match s with
  | [] => simp [pyStartsWith, List.isPrefixOf] at h
  | [c] => simp [pyStartsWith, List.isPrefixOf] at h
  | c :: d :: t =>
    simp only [pyStartsWith, List.isPrefixOf, Bool.and_eq_true, beq_iff_eq,
      List.isPrefixOf_nil_left, and_true] at h
    obtain ⟨hc, hd⟩ := h
    subst hc
    subst hd
    exact ⟨parseSubject_bnode t, parseObject_bnode t⟩

/-- C2: for every non-empty IRI text `v` without angle brackets, `n3`
encodes `IRI(v)` as `<v>`, and the per-field decode returns `IRI(v)` in
every position, so decode ∘ encode is the identity on such IRIs. -/
theorem iri_roundtrip (v : Str) (h1 : v ≠ []) (h2 : '<' ∉ v) (h3 : '>' ∉ v) :
    n3 (.IRI v) = '<' :: v ++ ['>'] ∧
    (∀ s : Str, pyStartsWith s ['<'] = true → pyEndsWith s ['>'] = true →
      parseSubject s = .IRI (enclosed s) ∧
      parsePredicate s = .IRI (enclosed s) ∧
      parseObject s = .IRI (enclosed s)) ∧
    parseSubject (n3 (.IRI v)) = .IRI v ∧
    parsePredicate (n3 (.IRI v)) = .IRI v ∧
    parseObject (n3 (.IRI v)) = .IRI v :=
  ⟨rfl, fun s hs he => angle_field_decode s hs he,
   parseSubject_angle v, parsePredicate_angle v, parseObject_angle v⟩

theorem iri_roundtrip_witness :
    (['a'] : Str) ≠ [] ∧ '<' ∉ (['a'] : Str) ∧ '>' ∉ (['a'] : Str) ∧
    (n3 (.IRI ['a']) = '<' :: ['a'] ++ ['>'] ∧
     (∀ s : Str, pyStartsWith s ['<'] = true → pyEndsWith s ['>'] = true →
       parseSubject s = .IRI (enclosed s) ∧
       parsePredicate s = .IRI (enclosed s) ∧
       parseObject s = .IRI (enclosed s)) ∧
     parseSubject (n3 (.IRI ['a'])) = .IRI ['a'] ∧
     parsePredicate (n3 (.IRI ['a'])) = .IRI ['a'] ∧
     parseObject (n3 (.IRI ['a'])) = .IRI ['a']) :=
  ⟨by decide, by decide, by decide, iri_roundtrip ['a'] (by decide) (by decide) (by decide)⟩

/-- C3: for every blank-node identifier `b` that does not itself begin
with `_:`, `n3` encodes `BlankNode(b)` as `_:b`, and the subject and
object decoders return `BlankNode(b)` on that text. -/
theorem bnode_roundtrip (b : Str) (h : ¬ pyStartsWith b ['_', ':'] = true) :
    n3 (.BlankNode b) = '_' :: ':' :: b ∧
    (∀ s : Str, pyStartsWith s ['_', ':'] = true →
      parseSubject s = .BlankNode (s.drop 2) ∧ parseObject s = .BlankNode (s.drop 2)) ∧
    parseSubject (n3 (.BlankNode b)) = .BlankNode b ∧
    parseObject (n3 (.BlankNode b)) = .BlankNode b :=
  ⟨rfl, fun s hs => bnode_field_decode s hs, parseSubject_bnode b, parseObject_bnode b⟩

theorem bnode_roundtrip_witness :
    (¬ pyStartsWith ['b'] ['_', ':'] = true) ∧
    (n3 (.BlankNode ['b']) = '_' :: ':' :: ['b'] ∧
     (∀ s : Str, pyStartsWith s ['_', ':'] = true →
       parseSubject s = .BlankNode (s.drop 2) ∧ parseObject s = .BlankNode (s.drop 2)) ∧
     parseSubject (n3 (.BlankNode ['b'])) = .BlankNode ['b'] ∧
     parseObject (n3 (.BlankNode ['b'])) = .BlankNode ['b']) :=
  ⟨by decide, bnode_roundtrip ['b'] (by decide)⟩

/-- C5: the empty field text decodes without failure in every position:
to a `Literal` with empty lexical value and no datatype or language in
the subject and object positions, and to `IRI("")` in the predicate
position; the (total) decoders reject nothing. -/
theorem empty_field_decodes :
    parseSubject [] = .Literal [] none none ∧
    parseObject [] = .Literal [] none none ∧
    parsePredicate [] = .IRI [] := by
  decide

/-- C6: a predicate field that does not both start with `<` and end
with `>` decodes to an `IRI` carrying the raw field text verbatim —
never a `BlankNode` or a `Literal`. -/
theorem predicate_raw_iri (p : Str)
    (h : ¬(pyStartsWith p ['<'] = true ∧ pyEndsWith p ['>'] = true)) :
    parsePredicate p = .IRI p := by
  unfold parsePredicate
  rw [if_neg fun hc => h (by simpa using hc)]

theorem predicate_raw_iri_witness :
    (¬(pyStartsWith "_:b".toList ['<'] = true ∧ pyEndsWith "_:b".toList ['>'] = true)) ∧
    parsePredicate "_:b".toList = .IRI "_:b".toList :=
  ⟨by decide, predicate_raw_iri "_:b".toList (by decide)⟩

/-- C7: the `<...>` rule comes first: any subject or object field that
starts with `<` and ends with `>` decodes to an `IRI` holding the
enclosed substring, shadowing the blank-node and literal rules. -/
theorem angle_rule_first (s : Str)
    (h1 : pyStartsWith s ['<'] = true) (h2 : pyEndsWith s ['>'] = true) :
    parseSubject s = .IRI (enclosed s) ∧ parseObject s = .IRI (enclosed s) := by
  have hc : (pyStartsWith s ['<'] && pyEndsWith s ['>']) = true := by
    rw [h1, h2]
    rfl
  constructor
  · unfold parseSubject
    rw [if_pos hc]
  · unfold parseObject
    rw [if_pos hc]

theorem angle_rule_first_witness :
    pyStartsWith "<\"x\">".toList ['<'] = true ∧
    pyEndsWith "<\"x\">".toList ['>'] = true ∧
    (parseSubject "<\"x\">".toList = .IRI (enclosed "<\"x\">".toList) ∧
     parseObject "<\"x\">".toList = .IRI (enclosed "<\"x\">".toList)) :=
  ⟨by decide, by decide, angle_rule_first "<\"x\">".toList (by decide) (by decide)⟩

theorem head_of_quote_start (c : Char) (t : Str)
    (h : (pyStartsWith (c :: t) ['"'] || pyStartsWith (c :: t) ['\'']) = true) :
    c = '"' ∨ c = '\'' := by
  simp [pyStartsWith, List.isPrefixOf] at h
  rcases h with h | h
  · exact Or.inl h.symm
  · exact Or.inr h.symm

/-- C9: a subject or object field that starts with a double or single
quote is decoded asymmetrically: the object decoder strips every
leading and trailing quote character and keeps the rest as the literal
lexical value, while the subject decoder keeps the raw text, quotes
included, as the lexical value. -/
theorem quote_asymmetry (str : Str)
    (h : (pyStartsWith str ['"'] || pyStartsWith str ['\'']) = true) :
    parseObject str = .Literal (pyStrip str) none none ∧
    parseSubject str = .Literal str none none := by
  match str with
  | [] => simp [pyStartsWith, List.isPrefixOf] at h
  | c :: t =>
    rcases head_of_quote_start c t h with rfl | rfl <;>
      simp [parseObject, parseSubject, pyStartsWith, pyEndsWith, List.isPrefixOf]

theorem quote_asymmetry_witness :
    (pyStartsWith "'ab\"".toList ['"'] || pyStartsWith "'ab\"".toList ['\'']) = true ∧
    (parseObject "'ab\"".toList = .Literal (pyStrip "'ab\"".toList) none none ∧
     parseSubject "'ab\"".toList = .Literal "'ab\"".toList none none) :=
  ⟨by decide, quote_asymmetry "'ab\"".toList (by decide)⟩

/-- C4 (counterexample): encoding `Literal("hello", None, "en")` gives
the field text `"hello"@en`, but decoding that field does not give a
`Literal` with lexical value `hello`: `strip` removes quote characters
only at the two ends of the string, and the string ends in `n`. -/
theorem lang_literal_decode_counterexample :
    parseObject (n3 (.Literal "hello".toList none (some "en".toList)))
      ≠ .Literal "hello".toList none none := by
  decide

/-- C4 (amended): encoding `Literal("hello", None, "en")` gives the
field text `"hello"@en`; decoding that field gives a `Literal` with no
language tag and no datatype whose lexical value is `hello"@en` — only
the leading quote is stripped, the closing quote and the `@en` suffix
remain inside the lexical value. -/
theorem lang_literal_encode_decode :
    n3 (.Literal "hello".toList none (some "en".toList)) = "\"hello\"@en".toList ∧
    parseObject "\"hello\"@en".toList = .Literal "hello\"@en".toList none none := by
  decide

theorem length_le_ceil_mul (n k : Nat) (hk : 1 ≤ k) : n ≤ ((n + k - 1) / k) * k := by
  have hdm := Nat.div_add_mod (n + k - 1) k
  have hmod : (n + k - 1) % k < k := Nat.mod_lt _ hk
  rw [Nat.mul_comm]
  generalize (n + k - 1) / k = q at hdm ⊢
  generalize (n + k - 1) % k = r at hdm hmod
  generalize k * q = M at hdm ⊢
  omega

theorem flatten_range_take_drop (l : List Row) (k : Nat) (j : Nat) :
    ((List.range j).map (fun i => (l.drop (i * k)).take k)).flatten = l.take (j * k) := by
  induction j with
  | zero => simp
  | succ j ih =>
    rw [List.range_succ, List.map_append, List.flatten_append, ih]
    have hmul : (j + 1) * k = j * k + k := by ring
    rw [hmul, List.take_add]
    simp

theorem chunks_flatten (rows : List Row) (k : Nat) (hk : 1 ≤ k) :
    (chunks rows k).flatten = rows := by
  have hcomp : chunks rows k
      = (List.range ((rows.length + k - 1) / k)).map (fun i => (rows.drop (i * k)).take k) := by
    simp [chunks, batchStarts, List.map_map, Function.comp]
  rw [hcomp, flatten_range_take_drop]
  exact List.take_of_length_le (length_le_ceil_mul rows.length k hk)

theorem decodeBatch_eq_map (rows : List Row) (k : Nat) (hk : 1 ≤ k) :
    decodeBatch rows k = rows.map parseRow := by
  unfold decodeBatch
  rw [← List.map_flatten, chunks_flatten rows k hk]

/-- C1: for every row sequence and every batch size `k ≥ 1` (also `k`
larger than the row count), the decoded triple sequence has the same
length and order as the input rows — it equals the row-by-row decode —
and is therefore identical for every choice of batch size. -/
theorem decodeBatch_order_invariant (rows : List Row) (k k2 : Nat)
    (hk : 1 ≤ k) (hk2 : 1 ≤ k2) :
    (decodeBatch rows k).length = rows.length ∧
    decodeBatch rows k = rows.map parseRow ∧
    decodeBatch rows k = decodeBatch rows k2 := by
  refine ⟨?_, decodeBatch_eq_map rows k hk, ?_⟩
  · rw [decodeBatch_eq_map rows k hk, List.length_map]
  · rw [decodeBatch_eq_map rows k hk, decodeBatch_eq_map rows k2 hk2]

def sampleRows : List Row :=
  [⟨"<a>".toList, "<p>".toList, "\"x\"".toList⟩,
   ⟨"_:b1".toList, "q".toList, "_:b2".toList⟩,
   ⟨[], "<p>".toList, "'y'".toList⟩]

theorem decodeBatch_order_invariant_witness :
    1 ≤ 2 ∧ 1 ≤ 7 ∧
    ((decodeBatch sampleRows 2).length = sampleRows.length ∧
     decodeBatch sampleRows 2 = sampleRows.map parseRow ∧
     decodeBatch sampleRows 2 = decodeBatch sampleRows 7) :=
  ⟨by decide, by decide, decodeBatch_order_invariant sampleRows 2 7 (by decide) (by decide)⟩

def tripleJohnType : Triple :=
  ⟨.IRI "ex:John".toList, .IRI "rdf:type".toList, .IRI "ex:Person".toList⟩

def tripleJohnName : Triple :=
  ⟨.IRI "ex:John".toList, .IRI "ex:name".toList, .Literal "John Doe".toList none none⟩

def tripleJohnKnows : Triple :=
  ⟨.IRI "ex:John".toList, .IRI "ex:knows".toList, .IRI "ex:Jane".toList⟩

/-- C8: encoding the three scenario triples and loading the rows back
(default batch size 100000) into an empty graph yields exactly the
three original triples, in order: subjects and predicates are the
original IRIs and the object literal's lexical value is `John Doe`. -/
theorem end_to_end_three_triples :
    load_parquet [] ([tripleJohnType, tripleJohnName, tripleJohnKnows].map encodeTriple) 100000
      = [tripleJohnType, tripleJohnName, tripleJohnKnows] ∧
    (load_parquet [] ([tripleJohnType, tripleJohnName, tripleJohnKnows].map encodeTriple) 100000).length
      = 3 := by
  decide

theorem mem_foldl_graphAdd (t : Triple) :
    ∀ (ts : List Triple) (g : Graph), t ∈ g → t ∈ ts.foldl graphAdd g := by
  intro ts
  induction ts with
  | nil => exact fun g h => h
  | cons a as ih =>
    intro g h
    rw [List.foldl_cons]
    refine ih (graphAdd g a) ?_
    unfold graphAdd
    by_cases hm : a ∈ g
    · rw [if_pos hm]
      exact h
    · rw [if_neg hm]
      exact List.mem_append_left _ h

theorem mem_foldl_batches (t : Triple) :
    ∀ (bs : List (List Row)) (g : Graph), t ∈ g →
      t ∈ bs.foldl (fun acc batch => ((batch.map parseRow).foldl graphAdd acc)) g := by
  intro bs
  induction bs with
  | nil => exact fun g h => h
  | cons b bs ih =>
    intro g h
    rw [List.foldl_cons]
    exact ih _ (mem_foldl_graphAdd t _ g h)

/-- C10: `load_parquet` only adds: every triple present in the graph
before the call is still present in the graph it returns, for every
prior graph state, row sequence and batch size, so repeated loads
accumulate triples into one graph. -/
theorem load_parquet_only_adds (g : Graph) (rows : List Row) (k : Nat)
    (t : Triple) (h : t ∈ g) : t ∈ load_parquet g rows k := by
  unfold load_parquet
  exact mem_foldl_batches t _ g h

theorem load_parquet_only_adds_witness :
    tripleJohnType ∈ [tripleJohnType] ∧
    tripleJohnType ∈ load_parquet [tripleJohnType] sampleRows 1 :=
  ⟨by decide, load_parquet_only_adds [tripleJohnType] sampleRows 1 tripleJohnType (by decide)⟩
